import Mathlib

/-! Shallow embedding of the BioFinder index (`biofinder_server.py`): the tool
metadata model, the container index, version-tag parsing, exact lookup
(`search_tool`), the keyword fallback scorer (`_keyword_search`), the semantic
ranking pipeline (`search_by_function`), and the embedding-cache loader
(`_load_embeddings` / `build_embeddings`).  Machine floats are modelled as
real numbers; the neural text-encoding step of each embedding model is kept
abstract (its scored output is a parameter of the model state), since the
claims treat it as a black box producing `(tool_id, score)` pairs. -/

/-- Python `needle in hay` on strings: the substring test. -/
def strContains (hay needle : String) : Bool :=
  decide (needle.toList <:+: hay.toList)

/-- Python `s.lower()`, written as a structural map over the character data
(ASCII case folding, as `str.lower` behaves on this catalog's ASCII text). -/
def lowerStr (s : String) : String :=
  ⟨s.data.map Char.toLower⟩

/-- Python `s.strip()`: drop leading and trailing whitespace. -/
def pyStrip (s : String) : String :=
  ⟨((s.data.dropWhile Char.isWhitespace).reverse.dropWhile Char.isWhitespace).reverse⟩

/-- Python `s.replace(a, b)` for one-character `a` and `b` (the only form the
code uses: the hyphen/underscore swaps of `search_tool`). -/
def replaceChar (s : String) (a b : Char) : String :=
  ⟨s.data.map (fun c => if c = a then b else c)⟩

/-- Helper of `pySplit`, structurally recursive on fuel so that concrete
instances evaluate inside the kernel. -/
def splitWsAux : Nat → List Char → List String
  | 0, _ => []
  | _, [] => []
  | fuel + 1, c :: cs =>
    if c.isWhitespace then splitWsAux fuel cs
    else
      String.mk (c :: cs.takeWhile (fun d => !d.isWhitespace)) ::
        splitWsAux fuel (cs.dropWhile (fun d => !d.isWhitespace))

/-- Python `s.split()` with no argument: split on whitespace runs, no empty
fragments. -/
def pySplit (s : String) : List String :=
  splitWsAux s.data.length s.data

/-- Python `len(set(a) & set(b))`: how many distinct elements of `a` also
occur in `b`. -/
def interCount (a b : List String) : Nat :=
  ((a.eraseDups).filter (fun t => b.contains t)).length

/-- One entry of `toolfinder_meta.yaml`.  Missing / `None` string fields are
the empty string (the code reads them as `entry.get(k) or ''`); the nested
EDAM input/output descriptor structures appear here through the string
sequences the scorer iterates over. -/
structure ToolRecord where
  id : String := ""
  name : String := ""
  description : String := ""
  biotools : String := ""
  biocontainers : String := ""
  edam_operations : List String := []
  edam_topics : List String := []
  edam_inputs : List String := []
  edam_outputs : List String := []
  deriving Repr, DecidableEq

/-- One entry of the container cache (`galaxy_singularity_cache.json.gz`). -/
structure ContainerEntry where
  tool_name : String
  tag : String
  path : String := ""
  size_bytes : Nat := 0
  mtime : Nat := 0
  deriving Repr, DecidableEq

/-- `BioFinderIndex._build_container_index` groups entries by lowercased
`tool_name`; `container_index[key]` (and `.get(key, [])`) is the sublist of
entries whose lowercased tool name equals `key`, in insertion order. -/
def containerLookup (entries : List ContainerEntry) (key : String) : List ContainerEntry :=
  entries.filter (fun e => lowerStr e.tool_name == key)

/-- Value of a run of decimal digits, as `int()` reads it. -/
def natOfDigits (cs : List Char) : Nat :=
  cs.foldl (fun n c => n * 10 + (c.toNat - '0'.toNat)) 0

/-- The `(?:\.\d+)*` tail of the version regex: repeatedly consume a dot
followed by a nonempty digit run.  Fuel bounds the recursion by the input
length. -/
def versionTail : Nat → List Char → List Nat
  | 0, _ => []
  | fuel + 1, cs =>
    match cs with
    | '.' :: rest =>
      let ds := rest.takeWhile Char.isDigit
      if ds.isEmpty then []
      else natOfDigits ds :: versionTail fuel (rest.dropWhile Char.isDigit)
    | _ => []

/-- `BioFinderIndex._parse_version`: match `^(\d+(?:\.\d+)*)` against the tag;
on a match return the dot-separated integers plus the tag as tie-break, else
`([0], tag)`. -/
def parseVersion (tag : String) : List Nat × String :=
  let cs := tag.toList
  let ds := cs.takeWhile Char.isDigit
  if ds.isEmpty then ([0], tag)
  else (natOfDigits ds :: versionTail cs.length (cs.dropWhile Char.isDigit), tag)

/-- Python `<` on integer lists (lexicographic). -/
def natListLt : List Nat → List Nat → Bool
  | _, [] => false
  | [], _ :: _ => true
  | a :: as, b :: bs => Nat.blt a b || (a == b && natListLt as bs)

/-- Python `<` on strings: lexicographic by code point. -/
def charListLt : List Char → List Char → Bool
  | _, [] => false
  | [], _ :: _ => true
  | a :: as, b :: bs => decide (a < b) || (a == b && charListLt as bs)

def strLt (s t : String) : Bool := charListLt s.toList t.toList

/-- Python `<` on `([ints], tag)` sort keys: lexicographic pairs. -/
def vkeyLt (a b : List Nat × String) : Bool :=
  natListLt a.1 b.1 || (a.1 == b.1 && strLt a.2 b.2)

/-- `sorted(key=_parse_version, reverse=True)` places `a` at or before `b`
exactly when `a`'s key is not below `b`'s. -/
def verBefore (a b : ContainerEntry) : Prop :=
  vkeyLt (parseVersion a.tag) (parseVersion b.tag) = false

instance : DecidableRel verBefore := fun a b => by unfold verBefore; infer_instance

/-- The `q in (id, name, biotools, biocontainers)` exact-match test of
`search_tool` (each field lowercased). -/
def exactFieldMatch (q : String) (e : ToolRecord) : Bool :=
  q == lowerStr e.id || q == lowerStr e.name || q == lowerStr e.biotools ||
    q == lowerStr e.biocontainers

/-- The substring fallback of `search_tool`: `q in eid or eid in q`. -/
def substrFieldMatch (q : String) (e : ToolRecord) : Bool :=
  strContains (lowerStr e.id) q || strContains q (lowerStr e.id)

/-- The metadata scan of `search_tool`: exact pass first, then the substring
fallback pass. -/
def findToolMeta (metadata : List ToolRecord) (q : String) : Option ToolRecord :=
  match metadata.find? (exactFieldMatch q) with
  | some e => some e
  | none => metadata.find? (substrFieldMatch q)

/-- The container-candidate loop of `search_tool`: first key with a nonempty
container-index hit wins, else no containers. -/
def firstContainerHit (entries : List ContainerEntry) : List String → List ContainerEntry
  | [] => []
  | c :: cs =>
    if (containerLookup entries c).isEmpty then firstContainerHit entries cs
    else containerLookup entries c

/-- The result dict of `search_tool`. -/
structure SearchToolResult where
  query : String
  metadata : Option ToolRecord
  containers : List ContainerEntry
  container_count : Nat
  deriving Repr, DecidableEq

/-- `BioFinderIndex.search_tool`. -/
def searchTool (metadata : List ToolRecord) (entries : List ContainerEntry)
    (query : String) : SearchToolResult :=
  let q := pyStrip (lowerStr query)
  let tool_meta := findToolMeta metadata q
  let cands := [q, replaceChar q '-' '_', replaceChar q '_' '-'] ++
    (match tool_meta with
     | some e => if e.id ≠ "" then [lowerStr e.id] else []
     | none => [])
  let containers := firstContainerHit entries cands
  let containers_sorted :=
    if containers.isEmpty then [] else List.insertionSort verBefore containers
  { query := query
    metadata := tool_meta
    containers := containers_sorted
    container_count := containers_sorted.length }

/-- The per-tool integer score of `_keyword_search` (its `q` argument is the
already-lowercased query). -/
def keywordScore (q : String) (e : ToolRecord) : Nat :=
  let descScore :=
    let desc := lowerStr e.description
    if desc == "" then 0
    else interCount (pySplit q) (pySplit desc) * 2 + (if strContains desc q then 5 else 0)
  let opScore := ((e.edam_operations.filter
    (fun op => op != "" && strContains (lowerStr op) q)).length) * 3
  let topicScore := ((e.edam_topics.filter
    (fun t => t != "" && strContains (lowerStr t) q)).length) * 2
  let inScore := ((e.edam_inputs.filter
    (fun t => t != "" && strContains (lowerStr t) q)).length) * 2
  let outScore := ((e.edam_outputs.filter
    (fun t => t != "" && strContains (lowerStr t) q)).length) * 2
  let nameScore := if strContains (lowerStr e.name) q then 4 else 0
  let idScore := if strContains (lowerStr e.id) q then 4 else 0
  descScore + opScore + topicScore + inScore + outScore + nameScore + idScore

/-- The `score_detail` field of a result dict. -/
inductive ScoreDetail where
  | keyword (score : Nat)
  | semantic (minilm biobert combined container_boost final : ℝ)

/-- One result dict of `search_by_function` / `_keyword_search`. -/
structure SearchResult where
  tool : ToolRecord
  score : ℝ
  score_detail : ScoreDetail

/-- `results.sort(key=lambda x: x['score'], reverse=True)` places `a` at or
before `b` exactly when `b`'s score does not exceed `a`'s. -/
def resBefore (a b : SearchResult) : Prop := b.score ≤ a.score

noncomputable instance : DecidableRel resBefore := fun a b => Real.decidableLE b.score a.score
instance : IsTotal SearchResult resBefore := ⟨fun a b => le_total b.score a.score⟩
instance : IsTrans SearchResult resBefore := ⟨fun _ _ _ h1 h2 => le_trans h2 h1⟩

/-- The loop body of `_keyword_search`: a result dict when the tool scores
positively, nothing otherwise. -/
noncomputable def kwResult (q : String) (e : ToolRecord) : Option SearchResult :=
  if 0 < keywordScore q e then
    some ⟨e, (keywordScore q e : ℝ), .keyword (keywordScore q e)⟩
  else none

/-- `BioFinderIndex._keyword_search`: score every tool, keep positive scores in
insertion order, sort stably by descending score, truncate. -/
noncomputable def keywordSearch (metadata : List ToolRecord) (query : String)
    (limit : Nat) : List SearchResult :=
  (List.insertionSort resBefore
    (metadata.filterMap (kwResult (lowerStr query)))).take limit

/-- The model weights configured at the top of the file (`MINILM_WEIGHT = 0`,
`BIOBERT_WEIGHT = 0`, `MPNET_WEIGHT = 1`). -/
def MINILM_WEIGHT : ℝ := 0
def BIOBERT_WEIGHT : ℝ := 0
def MPNET_WEIGHT : ℝ := 1

/-- The score-combination branch of `search_by_function` (step 2): Python float
truthiness makes `if m_score and b_score and p_score` the all-nonzero test,
`elif m_score` the `m ≠ 0` test, and the final `else` yields `b_score`. -/
noncomputable def combineScore (m b p : ℝ) : ℝ :=
  if m ≠ 0 ∧ b ≠ 0 ∧ p ≠ 0 then
    MINILM_WEIGHT * m + BIOBERT_WEIGHT * b + MPNET_WEIGHT * p
  else if m ≠ 0 then m
  else b

/-- One `SemanticSearchIndex` as `search_by_function` consumes it: its
availability flag, and its `query(text, top_k)` output (the encoder and the
cosine-similarity top-k over it are abstracted as this function). -/
structure EmbModel where
  available : Bool
  res : String → Nat → List (String × ℝ)

/-- The state `search_by_function` reads: metadata table, raw container
entries (standing for the grouped container index), and the three model
slots. -/
structure BioFinderIndex where
  metadata : List ToolRecord
  entries : List ContainerEntry
  minilm : EmbModel
  biobert : EmbModel
  mpnet : EmbModel

/-- Python dict lookup with default `0.0` over the score pairs a model
returned (later pairs for the same id overwrite earlier ones). -/
def dictGet (l : List (String × ℝ)) (k : String) : ℝ :=
  match l.reverse.find? (fun p => p.1 == k) with
  | some p => p.2
  | none => 0

/-- The key set of such a dict, in first-insertion order. -/
def dictKeys (l : List (String × ℝ)) : List String :=
  (l.map Prod.fst).eraseDups

/-- `candidate_pool = min(limit * 4, len(self.metadata))`. -/
def candidatePool (st : BioFinderIndex) (limit : Nat) : Nat :=
  min (limit * 4) st.metadata.length

def minilmScores (st : BioFinderIndex) (q : String) (limit : Nat) : List (String × ℝ) :=
  if st.minilm.available then st.minilm.res q (candidatePool st limit) else []

def biobertScores (st : BioFinderIndex) (q : String) (limit : Nat) : List (String × ℝ) :=
  if st.biobert.available then st.biobert.res q (candidatePool st limit) else []

def mpnetScores (st : BioFinderIndex) (q : String) (limit : Nat) : List (String × ℝ) :=
  if st.mpnet.available then st.mpnet.res q (candidatePool st limit) else []

/-- The candidate union `set(minilm_scores) | set(biobert_scores) |
set(mpnet_scores)`.  A Python set iterates in an unspecified order; this
enumeration fixes first-appearance order, and every property proved about the
pipeline is insensitive to that choice. -/
def allIds (st : BioFinderIndex) (q : String) (limit : Nat) : List String :=
  (dictKeys (minilmScores st q limit) ++ dictKeys (biobertScores st q limit) ++
    dictKeys (mpnetScores st q limit)).eraseDups

/-- The combined semantic score of one candidate id. -/
noncomputable def semOf (st : BioFinderIndex) (q : String) (limit : Nat)
    (tid : String) : ℝ :=
  combineScore (dictGet (minilmScores st q limit) tid)
    (dictGet (biobertScores st q limit) tid)
    (dictGet (mpnetScores st q limit) tid)

/-- `n_containers = len(self.container_index.get(tool_id, []))`. -/
def countOf (st : BioFinderIndex) (tid : String) : Nat :=
  (containerLookup st.entries tid).length

/-- `container_boost = np.log1p(n_containers) * 0.08`. -/
noncomputable def containerBoost (n : Nat) : ℝ :=
  Real.log (1 + (n : ℝ)) * 0.08

/-- `final_score = semantic_score + container_boost`. -/
noncomputable def finalOf (st : BioFinderIndex) (q : String) (limit : Nat)
    (tid : String) : ℝ :=
  semOf st q limit tid + containerBoost (countOf st tid)

/-- Python `round(x, 4)`, up to its tie-breaking rule. -/
noncomputable def round4 (x : ℝ) : ℝ := (round (x * 10000) : ℤ) / 10000

/-- One iteration of the combine loop: look the candidate id up in the
metadata table (`next(..., None)`), drop the candidate when no record matches,
else build its result dict. -/
noncomputable def resultOf (st : BioFinderIndex) (q : String) (limit : Nat)
    (tid : String) : Option SearchResult :=
  (st.metadata.find? (fun e => e.id == tid)).map (fun e =>
    { tool := e
      score := finalOf st q limit tid
      score_detail := .semantic (round4 (dictGet (minilmScores st q limit) tid))
        (round4 (dictGet (biobertScores st q limit) tid))
        (round4 (semOf st q limit tid))
        (round4 (containerBoost (countOf st tid)))
        (round4 (finalOf st q limit tid)) })

/-- The `combined` list before sorting. -/
noncomputable def combinedResults (st : BioFinderIndex) (q : String)
    (limit : Nat) : List SearchResult :=
  (allIds st q limit).filterMap (resultOf st q limit)

/-- `semantic_available = minilm.available or biobert.available or
mpnet.available`. -/
def semanticAvailable (st : BioFinderIndex) : Bool :=
  st.minilm.available || st.biobert.available || st.mpnet.available

/-- `BioFinderIndex.search_by_function`: keyword fallback when no model is
available, else the combine / boost / sort / truncate pipeline. -/
noncomputable def searchByFunction (st : BioFinderIndex) (query : String)
    (limit : Nat) : List SearchResult :=
  if semanticAvailable st = false then keywordSearch st.metadata query limit
  else (List.insertionSort resBefore (combinedResults st query limit)).take limit

/-- The on-disk cache unit `_load_embeddings` examines.  Each artifact is
absent (`none`), or present; a present matrix / id-list artifact either
deserializes (`some (some v)`) or raises when read (`some none`, the
`np.load` / `json.loads` failure caught by the `except` arm). -/
structure EmbCacheDisk where
  matrixFile : Option (Option (List (List ℚ)))
  idsFile : Option (Option (List String))
  hashFile : Option String
  deriving Repr, DecidableEq

/-- `SemanticSearchIndex._load_embeddings`: matrix file present, id-list file
present, hash file present, stripped stored hash equal to `meta_hash`, and
both deserializations succeed; any failure yields `false` (never an
exception). -/
def loadEmbeddings (disk : EmbCacheDisk) (meta_hash : String) : Bool :=
  match disk.matrixFile with
  | none => false
  | some mload =>
    match disk.idsFile with
    | none => false
    | some iload =>
      match disk.hashFile with
      | none => false
      | some stored =>
        if pyStrip stored != meta_hash then false
        else
          match mload, iload with
          | some _, some _ => true
          | _, _ => false

/-- What `SemanticSearchIndex.build_embeddings` does with the cache. -/
inductive BuildOutcome where
  | skipped
  | loadedCache
  | rebuilt
  deriving Repr, DecidableEq

/-- `SemanticSearchIndex.build_embeddings`: return at once when the model is
unavailable; else load the cache if it validates, otherwise re-encode
everything. -/
def buildEmbeddings (available : Bool) (disk : EmbCacheDisk)
    (meta_hash : String) : BuildOutcome :=
  if available = false then .skipped
  else if loadEmbeddings disk meta_hash then .loadedCache
  else .rebuilt

/-! ### Spec-side keyword-score formula

`specKeywordScore` transcribes the specification's scoring sentence: +2 per
query term in the description's term set, +5 when the query is a substring of
the description, +3 per EDAM operation containing the query, +2 per EDAM
topic / input descriptor / output descriptor containing the query, +4 for a
name hit and +4 for an id hit — with no emptiness guards, which is the one
place its reading can differ from the code. -/

def specKeywordScore (q : String) (e : ToolRecord) : Nat :=
  interCount (pySplit q) (pySplit (lowerStr e.description)) * 2
    + (if strContains (lowerStr e.description) q then 5 else 0)
    + (e.edam_operations.filter (fun s => strContains (lowerStr s) q)).length * 3
    + (e.edam_topics.filter (fun s => strContains (lowerStr s) q)).length * 2
    + (e.edam_inputs.filter (fun s => strContains (lowerStr s) q)).length * 2
    + (e.edam_outputs.filter (fun s => strContains (lowerStr s) q)).length * 2
    + (if strContains (lowerStr e.name) q then 4 else 0)
    + (if strContains (lowerStr e.id) q then 4 else 0)

/-- The positive-score result list the specification describes, in catalog
order, before sorting and truncation. -/
noncomputable def specScoredList (metadata : List ToolRecord) (q : String) :
    List SearchResult :=
  metadata.filterMap (fun e =>
    if 0 < specKeywordScore q e then
      some { tool := e, score := (specKeywordScore q e : ℝ)
             score_detail := .keyword (specKeywordScore q e) }
    else none)

/-! ### Helper lemmas -/

theorem strContains_empty_left {q : String} (hq : q ≠ "") :
    strContains "" q = false := by
  unfold strContains
  rw [decide_eq_false_iff_not]
  intro h
  have hnil : q.toList = [] := List.infix_nil.mp h
  apply hq
  cases q with
  | mk data =>
    have : data = [] := hnil
    rw [this]

theorem lowerStr_empty : lowerStr "" = "" := rfl

theorem guarded_contains_eq {q : String} (hq : q ≠ "") (t : String) :
    (t != "" && strContains (lowerStr t) q) = strContains (lowerStr t) q := by
  by_cases ht : t = ""
  · subst ht
    simp [lowerStr_empty, strContains_empty_left hq]
  · simp [ht]

theorem interCount_nil (a : List String) : interCount a [] = 0 := by
  simp [interCount]

theorem keywordScore_eq_spec {q : String} (hq : q ≠ "") (e : ToolRecord) :
    keywordScore q e = specKeywordScore q e := by
  have hop := List.filter_congr (fun s _ => guarded_contains_eq hq s)
    (l := e.edam_operations)
  have htp := List.filter_congr (fun s _ => guarded_contains_eq hq s)
    (l := e.edam_topics)
  have hin := List.filter_congr (fun s _ => guarded_contains_eq hq s)
    (l := e.edam_inputs)
  have hout := List.filter_congr (fun s _ => guarded_contains_eq hq s)
    (l := e.edam_outputs)
  by_cases hd : lowerStr e.description = ""
  · simp only [keywordScore, specKeywordScore, hop, htp, hin, hout, hd]
    have h1 : pySplit "" = [] := rfl
    simp [h1, interCount_nil, strContains_empty_left hq]
  · simp only [keywordScore, specKeywordScore, hop, htp, hin, hout]
    have hd' : (lowerStr e.description == "") = false := by
      simpa using hd
    simp [hd']

theorem find?_eq_some_of_first {α : Type} (p : α → Bool) :
    ∀ (l : List α) (i : Nat) (a : α), l.get? i = some a → p a = true →
      (∀ j, j < i → ∀ b, l.get? j = some b → p b = false) → l.find? p = some a
  | [], i, a, hi, _, _ => by simp at hi
  | x :: xs, 0, a, hi, ha, _ => by
    have hx : x = a := by simpa using hi
    subst hx
    simp [List.find?, ha]
  | x :: xs, i + 1, a, hi, ha, hf => by
    have hx : p x = false := hf 0 (Nat.succ_pos i) x rfl
    simp only [List.find?, hx]
    exact find?_eq_some_of_first p xs i a hi ha
      (fun j hj b hb => hf (j + 1) (Nat.succ_lt_succ hj) b hb)

theorem get?_take_some {α : Type} :
    ∀ (l : List α) (n k : Nat) (a : α),
      (l.take n).get? k = some a → k < n ∧ l.get? k = some a
  | _, 0, k, a, h => by simp at h
  | [], _ + 1, k, a, h => by simp at h
  | x :: xs, n + 1, 0, a, h => ⟨Nat.succ_pos n, h⟩
  | x :: xs, n + 1, k + 1, a, h => by
    obtain ⟨h1, h2⟩ := get?_take_some xs n k a h
    exact ⟨Nat.succ_lt_succ h1, h2⟩

theorem get?_take_lt {α : Type} :
    ∀ (l : List α) (n k : Nat), k < n → (l.take n).get? k = l.get? k
  | _, 0, k, h => absurd h (Nat.not_lt_zero k)
  | [], n + 1, k, _ => by simp
  | x :: xs, n + 1, 0, _ => rfl
  | x :: xs, n + 1, k + 1, h => get?_take_lt xs n k (Nat.lt_of_succ_lt_succ h)

theorem sorted_before_index :
    ∀ (l : List SearchResult), l.Sorted resBefore →
      ∀ (k : Nat) (x y : SearchResult), x ∈ l → l.get? k = some y →
        y.score < x.score → ∃ k', k' < k ∧ l.get? k' = some x
  | [], _, _, x, _, hx, _, _ => absurd hx (List.not_mem_nil x)
  | h :: t, hs, k, x, y, hx, hk, hxy => by
    rcases List.sorted_cons.mp hs with ⟨hhd, htl⟩
    cases k with
    | zero =>
      have hy : h = y := by simpa using hk
      subst hy
      rcases List.mem_cons.mp hx with h1 | h1
      · subst h1; exact absurd hxy (lt_irrefl _)
      · exact absurd hxy (not_lt.mpr (hhd x h1))
    | succ n =>
      by_cases hxh : x = h
      · exact ⟨0, Nat.succ_pos n, by simp [hxh]⟩
      · have hxt : x ∈ t := by
          rcases List.mem_cons.mp hx with h1 | h1
          · exact absurd h1 hxh
          · exact h1
        obtain ⟨k', hlt, heq⟩ := sorted_before_index t htl n x y hxt hk hxy
        exact ⟨k' + 1, Nat.succ_lt_succ hlt, heq⟩

theorem filter_orderedInsert_score (c : ℝ) (x : SearchResult) :
    ∀ l : List SearchResult,
      (List.orderedInsert resBefore x l).filter (fun r => decide (r.score = c)) =
        ((x :: l).filter (fun r => decide (r.score = c)))
  | [] => rfl
  | y :: ys => by
    by_cases h : resBefore x y
    · rw [List.orderedInsert_of_le _ ys h]
    · have hlt : x.score < y.score := not_le.mp h
      have step : List.orderedInsert resBefore x (y :: ys) =
          y :: List.orderedInsert resBefore x ys := if_neg h
      rw [step]
      have ih := filter_orderedInsert_score c x ys
      by_cases hy : y.score = c
      · have hx : ¬ x.score = c := fun hc => absurd hlt (by rw [hc, hy]; exact lt_irrefl c)
        simp [List.filter_cons, hy, hx, ih]
      · simp [List.filter_cons, hy, ih]

theorem filter_insertionSort_score (c : ℝ) :
    ∀ l : List SearchResult,
      (List.insertionSort resBefore l).filter (fun r => decide (r.score = c)) =
        l.filter (fun r => decide (r.score = c))
  | [] => rfl
  | x :: xs => by
    have h1 := filter_orderedInsert_score c x (List.insertionSort resBefore xs)
    have h2 := filter_insertionSort_score c xs
    simp only [List.insertionSort, h1, List.filter_cons, h2]

/-! ### Claims -/

/-- C1: evidence against the claim.  Evaluating the score-combination branch
at a candidate the MiniLM and BiomedBERT pools missed (both scores 0) but
MPNet scored 9/10: the code's `elif` chain falls through to the BiomedBERT
score and yields 0, not the first available non-zero per-model score. -/
theorem combineScore_mpnet_only_is_zero :
    combineScore 0 0 (9 / 10) = 0 ∧ (9 / 10 : ℝ) ≠ 0 := by
  constructor
  · simp [combineScore]
  · norm_num

/-- The index state of the C2 evidence: one catalog tool `t` with one
container entry, the MPNet model available and returning cosine score 0 for
`t` in its top-k list, the other models unavailable. -/
noncomputable def zeroScoreIdx : BioFinderIndex where
  metadata := [{ id := "t", description := "d" }]
  entries := [{ tool_name := "t", tag := "1" }]
  minilm := ⟨false, fun _ _ => []⟩
  biobert := ⟨false, fun _ _ => []⟩
  mpnet := ⟨true, fun _ _ => [("t", 0)]⟩

/-- C2: evidence against the claim.  A tool whose semantic score is zero in
every model still appears in the returned results (here it is the whole
result list), while it has a container entry: no `semantic_score > 0` gate
exists in the code. -/
theorem zero_semantic_tool_appears_in_results :
    (searchByFunction zeroScoreIdx "prune" 5).map (fun r => r.tool.id) = ["t"]
    ∧ semOf zeroScoreIdx "prune" 5 "t" = 0
    ∧ 0 < countOf zeroScoreIdx "t" := by
  refine ⟨rfl, ?_, by decide⟩
  show combineScore 0 0 0 = 0
  simp [combineScore]

/-- C9: for every input, `search_tool`'s result has `container_count` equal to
the length of its `containers` list, and returns the caller's query string
verbatim in the `query` field (not the lowercased/trimmed form). -/
theorem search_tool_result_invariants (metadata : List ToolRecord)
    (entries : List ContainerEntry) (query : String) :
    (searchTool metadata entries query).container_count =
      (searchTool metadata entries query).containers.length
    ∧ (searchTool metadata entries query).query = query :=
  ⟨rfl, rfl⟩

/-- C6: counterexample to the claim as stated.  `"latest"` does parse to
`([0], "latest")`, but it does not sort below every tag with a numeric
prefix: against the numeric tag `"0"` (key `([0], "0")`) the numeric parts
tie and the lexicographic tie-break on the raw tags puts `"latest"` first in
the descending container sort. -/
theorem latest_sorts_above_numeric_zero_tag :
    parseVersion "latest" = ([0], "latest")
    ∧ vkeyLt (parseVersion "latest") (parseVersion "0") = false
    ∧ List.insertionSort verBefore
        [{ tool_name := "t", tag := "0" }, { tool_name := "t", tag := "latest" }] =
      [{ tool_name := "t", tag := "latest" }, { tool_name := "t", tag := "0" }] :=
  ⟨by decide, by decide, by decide⟩

/-- C6 (amended): a tag with no leading numeric run parses to `([0], tag)`
and, under the descending container sort, sorts below every tag whose parsed
numeric key is lexicographically greater than `[0]`; against tags whose
numeric key is exactly `[0]` the order falls back to raw-tag string
comparison. -/
theorem unnumbered_tag_sorts_below_versioned (s t : String)
    (hs : (s.toList.takeWhile Char.isDigit).isEmpty = true)
    (ht : natListLt [0] (parseVersion t).1 = true) :
    parseVersion s = ([0], s)
    ∧ vkeyLt (parseVersion s) (parseVersion t) = true
    ∧ ∀ a b : ContainerEntry, a.tag = t → b.tag = s →
        List.insertionSort verBefore [b, a] = [a, b] := by
  have h1 : parseVersion s = ([0], s) := by
    simp only [parseVersion]
    rw [if_pos hs]
  have h2 : vkeyLt (parseVersion s) (parseVersion t) = true := by
    rw [h1]
    unfold vkeyLt
    simp [ht]
  refine ⟨h1, h2, ?_⟩
  intro a b hat hbs
  have hstep : List.insertionSort verBefore [b, a] =
      List.orderedInsert verBefore b [a] := rfl
  rw [hstep]
  have hnb : ¬ verBefore b a := by
    unfold verBefore
    rw [hat, hbs, h2]
    simp
  rw [List.orderedInsert, if_neg hnb]
  rfl

/-- C6 (amended) at a concrete input: `"latest"` against `"1.17--h00cdaf9_0"`. -/
theorem unnumbered_tag_sorts_below_versioned_witness :
    natListLt [0] (parseVersion "1.17--h00cdaf9_0").1 = true
    ∧ (parseVersion "latest" = ([0], "latest")
      ∧ vkeyLt (parseVersion "latest") (parseVersion "1.17--h00cdaf9_0") = true
      ∧ ∀ a b : ContainerEntry, a.tag = "1.17--h00cdaf9_0" → b.tag = "latest" →
          List.insertionSort verBefore [b, a] = [a, b]) :=
  ⟨by decide, unnumbered_tag_sorts_below_versioned "latest" "1.17--h00cdaf9_0"
    (by decide) (by decide)⟩

/-- C5: for a well-formed previously persisted cache unit (present artifacts
deserialize, the stored hash was written verbatim) and an available model,
the cache is accepted exactly when all three artifacts exist and the stored
hash equals the supplied content hash; any rejection makes `build_embeddings`
perform a full rebuild, and the build step only ever loads or rebuilds —
no cache-load failure is surfaced as an error. -/
theorem cache_accepted_iff_complete_and_hash_equal (disk : EmbCacheDisk)
    (h : String) (available : Bool) (hav : available = true)
    (hm : disk.matrixFile ≠ some none) (hi : disk.idsFile ≠ some none)
    (hh : ∀ s, disk.hashFile = some s → pyStrip s = s) :
    (loadEmbeddings disk h = true ↔
      disk.matrixFile ≠ none ∧ disk.idsFile ≠ none ∧ disk.hashFile = some h)
    ∧ (loadEmbeddings disk h = false →
        buildEmbeddings available disk h = .rebuilt)
    ∧ (buildEmbeddings available disk h = .loadedCache ∨
        buildEmbeddings available disk h = .rebuilt) := by
  subst hav
  have hb : ∀ b : Bool, loadEmbeddings disk h = b →
      buildEmbeddings true disk h = (if b then .loadedCache else .rebuilt) := by
    intro b hbv
    cases b <;> simp [buildEmbeddings, hbv]
  rcases disk with ⟨m, i, hsh⟩
  cases m with
  | none =>
    refine ⟨by simp [loadEmbeddings], ?_, ?_⟩
    · intro _
      simpa using hb false (by simp [loadEmbeddings])
    · right
      simpa using hb false (by simp [loadEmbeddings])
  | some mv =>
    cases i with
    | none =>
      refine ⟨by simp [loadEmbeddings], ?_, ?_⟩
      · intro _
        simpa using hb false (by simp [loadEmbeddings])
      · right
        simpa using hb false (by simp [loadEmbeddings])
    | some iv =>
      cases hsh with
      | none =>
        refine ⟨by simp [loadEmbeddings], ?_, ?_⟩
        · intro _
          simpa using hb false (by simp [loadEmbeddings])
        · right
          simpa using hb false (by simp [loadEmbeddings])
      | some stored =>
        have hst : pyStrip stored = stored := hh stored rfl
        cases mv with
        | none => exact absurd rfl hm
        | some mval =>
          cases iv with
          | none => exact absurd rfl hi
          | some ival =>
            by_cases heq : stored = h
            · subst heq
              have hload : loadEmbeddings
                  ⟨some (some mval), some (some ival), some stored⟩ stored = true := by
                simp [loadEmbeddings, hst]
              refine ⟨by simp [hload], ?_, ?_⟩
              · intro hfalse
                rw [hload] at hfalse
                exact absurd hfalse (by simp)
              · left
                simpa using hb true hload
            · have hload : loadEmbeddings
                  ⟨some (some mval), some (some ival), some stored⟩ h = false := by
                simp [loadEmbeddings, hst, heq]
              refine ⟨by simp [hload, heq], ?_, ?_⟩
              · intro _
                simpa using hb false hload
              · right
                simpa using hb false hload

/-- A concrete well-formed persisted cache unit for the C5 claim. -/
def cacheDiskWF : EmbCacheDisk :=
  ⟨some (some [[1]]), some (some ["t"]), some "abc"⟩

/-- C5 at a concrete input: the well-formed complete unit with a matching
hash is accepted. -/
theorem cache_accepted_iff_witness :
    loadEmbeddings cacheDiskWF "abc" = true ↔
      cacheDiskWF.matrixFile ≠ none ∧ cacheDiskWF.idsFile ≠ none ∧
        cacheDiskWF.hashFile = some "abc" :=
  (cache_accepted_iff_complete_and_hash_equal cacheDiskWF "abc" true rfl
    (by decide) (by decide)
    (fun s hs => by
      have hsv : s = "abc" := by
        have : some "abc" = some s := hs
        exact (Option.some.inj this).symm
      subst hsv
      decide)).1

/-- C8: `search_tool` lowercases and trims the query; when some record matches
one of the four identifier fields exactly (case-insensitively) and no earlier
record does, that record is returned — the substring fallback never runs, so
an exact match always beats any substring match. -/
theorem exact_lookup_beats_substring (metadata : List ToolRecord)
    (entries : List ContainerEntry) (query : String) (e : ToolRecord) (i : Nat)
    (hi : metadata.get? i = some e)
    (he : exactFieldMatch (pyStrip (lowerStr query)) e = true)
    (hfirst : ∀ j, j < i → ∀ e', metadata.get? j = some e' →
      exactFieldMatch (pyStrip (lowerStr query)) e' = false) :
    (searchTool metadata entries query).metadata = some e := by
  have hf := find?_eq_some_of_first _ metadata i e hi he hfirst
  simp [searchTool, findToolMeta, hf]

/-- Metadata for the C8 concrete input: the first record only substring-matches
the query `star`, the second matches it exactly. -/
def starMetadata : List ToolRecord := [{ id := "starfish" }, { id := "star" }]

/-- C8 at a concrete input: for query `"STAR "` the exact match `star` wins
although the earlier record `starfish` is a substring match. -/
theorem exact_lookup_beats_substring_witness :
    substrFieldMatch (pyStrip (lowerStr "STAR ")) { id := "starfish" } = true
    ∧ (searchTool starMetadata [] "STAR ").metadata = some { id := "star" } :=
  ⟨by decide, exact_lookup_beats_substring starMetadata [] "STAR "
    { id := "star" } 1 rfl (by decide)
    (fun j hj e' he' => by
      have hj0 : j = 0 := Nat.lt_one_iff.mp hj
      subst hj0
      have he'' : ({ id := "starfish" } : ToolRecord) = e' := by
        simpa [starMetadata] using he'
      rw [← he'']
      decide)⟩

/-- C3: with no embedding model available, `search_by_function` returns the
keyword scorer's result list unchanged, and is nonempty whenever the limit is
positive and some tool has a positive keyword score. -/
theorem no_models_falls_back_to_keyword (st : BioFinderIndex) (query : String)
    (limit : Nat) (h1 : st.minilm.available = false)
    (h2 : st.biobert.available = false) (h3 : st.mpnet.available = false) :
    searchByFunction st query limit = keywordSearch st.metadata query limit
    ∧ ((0 < limit ∧ ∃ e ∈ st.metadata, 0 < keywordScore (lowerStr query) e) →
        searchByFunction st query limit ≠ []) := by
  have hb : semanticAvailable st = false := by
    simp [semanticAvailable, h1, h2, h3]
  have heq : searchByFunction st query limit = keywordSearch st.metadata query limit := by
    simp [searchByFunction, hb]
  refine ⟨heq, ?_⟩
  rintro ⟨hlim, e, hmem, hpos⟩
  rw [heq]
  simp only [keywordSearch]
  intro hempty
  have hfe : kwResult (lowerStr query) e =
      some ⟨e, (keywordScore (lowerStr query) e : ℝ),
        .keyword (keywordScore (lowerStr query) e)⟩ := by
    unfold kwResult
    rw [if_pos hpos]
  have hrmem := List.mem_filterMap.mpr ⟨e, hmem, hfe⟩
  have hlen := List.length_pos_of_mem hrmem
  have hslen := (List.perm_insertionSort resBefore
    (st.metadata.filterMap (kwResult (lowerStr query)))).length_eq
  have hzero : ((List.insertionSort resBefore
      (st.metadata.filterMap (kwResult (lowerStr query)))).take limit).length = 0 := by
    rw [hempty]
    rfl
  rw [List.length_take, hslen] at hzero
  omega

/-- The index state for the C3 concrete input: no model available. -/
noncomputable def noModelIdx : BioFinderIndex where
  metadata := [{ id := "star", description := "RNA-seq aligner" }]
  entries := []
  minilm := ⟨false, fun _ _ => []⟩
  biobert := ⟨false, fun _ _ => []⟩
  mpnet := ⟨false, fun _ _ => []⟩

/-- C3 at a concrete input. -/
theorem no_models_falls_back_to_keyword_witness :
    searchByFunction noModelIdx "rna" 1 = keywordSearch noModelIdx.metadata "rna" 1
    ∧ ((0 < 1 ∧ ∃ e ∈ noModelIdx.metadata, 0 < keywordScore (lowerStr "rna") e) →
        searchByFunction noModelIdx "rna" 1 ≠ []) :=
  no_models_falls_back_to_keyword noModelIdx "rna" 1 rfl rfl rfl

/-- C4: for a nonempty lowercased query, `_keyword_search` computes exactly the
specification's scoring formula (`specKeywordScore`), excludes score-0 tools,
sorts descending by score — stably, preserving catalog order inside every
score class — and truncates to the limit. -/
theorem keyword_scorer_matches_spec_formula (metadata : List ToolRecord)
    (query : String) (limit : Nat) (hq : lowerStr query ≠ "") :
    keywordSearch metadata query limit =
      (List.insertionSort resBefore
        (specScoredList metadata (lowerStr query))).take limit
    ∧ (∀ r ∈ keywordSearch metadata query limit,
        ∃ n : Nat, 0 < n ∧ r.score = (n : ℝ) ∧ r.score_detail = .keyword n)
    ∧ (keywordSearch metadata query limit).Sorted resBefore
    ∧ (∀ c : ℝ,
        (List.insertionSort resBefore
          (specScoredList metadata (lowerStr query))).filter
            (fun r => decide (r.score = c)) =
          (specScoredList metadata (lowerStr query)).filter
            (fun r => decide (r.score = c))) := by
  have hsc : ∀ e ∈ metadata, kwResult (lowerStr query) e =
      (if 0 < specKeywordScore (lowerStr query) e then
        some ⟨e, (specKeywordScore (lowerStr query) e : ℝ),
          .keyword (specKeywordScore (lowerStr query) e)⟩
      else none) := by
    intro e _
    unfold kwResult
    rw [keywordScore_eq_spec hq e]
  have hlist : metadata.filterMap (kwResult (lowerStr query)) =
      specScoredList metadata (lowerStr query) := by
    unfold specScoredList
    exact List.filterMap_congr hsc
  refine ⟨?_, ?_, ?_, ?_⟩
  · simp only [keywordSearch, hlist]
  · intro r hr
    have hr1 : r ∈ List.insertionSort resBefore
        (metadata.filterMap (kwResult (lowerStr query))) := by
      simp only [keywordSearch] at hr
      exact (List.take_sublist _ _).subset hr
    have hr2 : r ∈ metadata.filterMap (kwResult (lowerStr query)) :=
      (List.perm_insertionSort resBefore _).mem_iff.mp hr1
    obtain ⟨e, _, hfe⟩ := List.mem_filterMap.mp hr2
    unfold kwResult at hfe
    by_cases hpos : 0 < keywordScore (lowerStr query) e
    · rw [if_pos hpos] at hfe
      have hre := Option.some.inj hfe
      exact ⟨keywordScore (lowerStr query) e, hpos, by rw [← hre], by rw [← hre]⟩
    · rw [if_neg hpos] at hfe
      exact absurd hfe (by simp)
  · have hs := List.sorted_insertionSort resBefore
      (metadata.filterMap (kwResult (lowerStr query)))
    simp only [keywordSearch]
    exact List.Pairwise.sublist (List.take_sublist _ _) hs
  · intro c
    exact filter_insertionSort_score c _

/-- The two-tool catalog of the C4 concrete input. -/
def rnaMetadata : List ToolRecord :=
  [{ id := "star", description := "Ultrafast universal RNA-seq data aligner" },
   { id := "plink", description := "Whole genome association analysis toolset" }]

/-- C4 at a concrete input. -/
theorem keyword_scorer_matches_spec_formula_witness :
    lowerStr "rna" ≠ ""
    ∧ (keywordSearch rnaMetadata "rna" 2 =
        (List.insertionSort resBefore
          (specScoredList rnaMetadata (lowerStr "rna"))).take 2
      ∧ (∀ r ∈ keywordSearch rnaMetadata "rna" 2,
          ∃ n : Nat, 0 < n ∧ r.score = (n : ℝ) ∧ r.score_detail = .keyword n)
      ∧ (keywordSearch rnaMetadata "rna" 2).Sorted resBefore
      ∧ (∀ c : ℝ,
          (List.insertionSort resBefore
            (specScoredList rnaMetadata (lowerStr "rna"))).filter
              (fun r => decide (r.score = c)) =
            (specScoredList rnaMetadata (lowerStr "rna")).filter
              (fun r => decide (r.score = c)))) :=
  ⟨by decide, keyword_scorer_matches_spec_formula rnaMetadata "rna" 2 (by decide)⟩

/-- C7: the popularity boost of every candidate is `ln(1 + container_count) ×
0.08`, and of two candidates with metadata records and equal combined semantic
score, the one with strictly more container entries is ranked strictly above
the other wherever the latter appears in the final output. -/
theorem boost_formula_and_popularity_monotonicity (st : BioFinderIndex)
    (q : String) (limit : Nat) (i j : String)
    (hav : semanticAvailable st = true)
    (hi : i ∈ allIds st q limit) (_hj : j ∈ allIds st q limit)
    (hmi : ∃ ei, st.metadata.find? (fun e => e.id == i) = some ei)
    (hmj : ∃ ej, st.metadata.find? (fun e => e.id == j) = some ej)
    (hsem : semOf st q limit i = semOf st q limit j)
    (hcnt : countOf st j < countOf st i) :
    (∀ tid, finalOf st q limit tid =
      semOf st q limit tid + Real.log (1 + (countOf st tid : ℝ)) * 0.08)
    ∧ ∃ ri rj, resultOf st q limit i = some ri ∧ resultOf st q limit j = some rj ∧
        ∀ k, (searchByFunction st q limit).get? k = some rj →
          ∃ k', k' < k ∧ (searchByFunction st q limit).get? k' = some ri := by
  obtain ⟨ei, hei⟩ := hmi
  obtain ⟨ej, hej⟩ := hmj
  have hri : resultOf st q limit i = some ⟨ei, finalOf st q limit i,
      .semantic (round4 (dictGet (minilmScores st q limit) i))
        (round4 (dictGet (biobertScores st q limit) i))
        (round4 (semOf st q limit i)) (round4 (containerBoost (countOf st i)))
        (round4 (finalOf st q limit i))⟩ := by
    unfold resultOf
    rw [hei]
    rfl
  have hrj : resultOf st q limit j = some ⟨ej, finalOf st q limit j,
      .semantic (round4 (dictGet (minilmScores st q limit) j))
        (round4 (dictGet (biobertScores st q limit) j))
        (round4 (semOf st q limit j)) (round4 (containerBoost (countOf st j)))
        (round4 (finalOf st q limit j))⟩ := by
    unfold resultOf
    rw [hej]
    rfl
  have hfin : finalOf st q limit j < finalOf st q limit i := by
    unfold finalOf containerBoost
    rw [hsem]
    have hlog : Real.log (1 + (countOf st j : ℝ)) <
        Real.log (1 + (countOf st i : ℝ)) := by
      apply Real.log_lt_log
      · positivity
      · have : (countOf st j : ℝ) < (countOf st i : ℝ) := by exact_mod_cast hcnt
        linarith
    have hmul : Real.log (1 + (countOf st j : ℝ)) * 0.08 <
        Real.log (1 + (countOf st i : ℝ)) * 0.08 :=
      mul_lt_mul_of_pos_right hlog (by norm_num)
    linarith
  refine ⟨fun tid => rfl, _, _, hri, hrj, ?_⟩
  intro k hk
  have hout : searchByFunction st q limit =
      (List.insertionSort resBefore (combinedResults st q limit)).take limit := by
    simp [searchByFunction, hav]
  rw [hout] at hk ⊢
  obtain ⟨hklim, hk2⟩ := get?_take_some _ _ _ _ hk
  have hmem : (⟨ei, finalOf st q limit i,
      .semantic (round4 (dictGet (minilmScores st q limit) i))
        (round4 (dictGet (biobertScores st q limit) i))
        (round4 (semOf st q limit i)) (round4 (containerBoost (countOf st i)))
        (round4 (finalOf st q limit i))⟩ : SearchResult) ∈
      combinedResults st q limit :=
    List.mem_filterMap.mpr ⟨i, hi, hri⟩
  have hmems := (List.mem_insertionSort resBefore).mpr hmem
  have hsorted := List.sorted_insertionSort resBefore (combinedResults st q limit)
  obtain ⟨k', hk'lt, hk'eq⟩ :=
    sorted_before_index _ hsorted k _ _ hmems hk2 hfin
  refine ⟨k', hk'lt, ?_⟩
  rw [get?_take_lt _ _ _ (lt_trans hk'lt hklim)]
  exact hk'eq

/-- The index state of the C7 concrete input: two tools with the same MPNet
score, one backed by a container entry. -/
noncomputable def boostIdx : BioFinderIndex where
  metadata := [{ id := "a" }, { id := "b" }]
  entries := [{ tool_name := "a", tag := "1" }]
  minilm := ⟨false, fun _ _ => []⟩
  biobert := ⟨false, fun _ _ => []⟩
  mpnet := ⟨true, fun _ _ => [("a", 1 / 2), ("b", 1 / 2)]⟩

/-- C7 at a concrete input. -/
theorem boost_formula_and_popularity_monotonicity_witness :
    countOf boostIdx "b" < countOf boostIdx "a"
    ∧ ((∀ tid, finalOf boostIdx "q" 5 tid = semOf boostIdx "q" 5 tid +
        Real.log (1 + (countOf boostIdx tid : ℝ)) * 0.08)
      ∧ ∃ ri rj, resultOf boostIdx "q" 5 "a" = some ri ∧
          resultOf boostIdx "q" 5 "b" = some rj ∧
          ∀ k, (searchByFunction boostIdx "q" 5).get? k = some rj →
            ∃ k', k' < k ∧ (searchByFunction boostIdx "q" 5).get? k' = some ri) :=
  ⟨by decide, boost_formula_and_popularity_monotonicity boostIdx "q" 5 "a" "b" rfl
    (by decide) (by decide) ⟨_, rfl⟩ ⟨_, rfl⟩ rfl (by decide)⟩

/-- C10: on the semantic path, every returned result's tool is a metadata
record whose id is one of the candidate ids, and a candidate id matching no
metadata record is silently dropped: no result carries it. -/
theorem semantic_results_drawn_from_metadata (st : BioFinderIndex) (q : String)
    (limit : Nat) (hav : semanticAvailable st = true) :
    (∀ r ∈ searchByFunction st q limit, r.tool ∈ st.metadata ∧
      r.tool.id ∈ allIds st q limit)
    ∧ (∀ tid ∈ allIds st q limit,
        st.metadata.find? (fun e => e.id == tid) = none →
        ∀ r ∈ searchByFunction st q limit, r.tool.id ≠ tid) := by
  have hout : searchByFunction st q limit =
      (List.insertionSort resBefore (combinedResults st q limit)).take limit := by
    simp [searchByFunction, hav]
  have hmem : ∀ r ∈ searchByFunction st q limit, r ∈ combinedResults st q limit := by
    intro r hr
    rw [hout] at hr
    exact (List.perm_insertionSort resBefore _).mem_iff.mp
      ((List.take_sublist _ _).subset hr)
  have hshape : ∀ r ∈ searchByFunction st q limit,
      ∃ tid ∈ allIds st q limit, ∃ e, st.metadata.find? (fun e => e.id == tid) = some e
        ∧ r.tool = e ∧ e.id = tid := by
    intro r hr
    obtain ⟨tid, htid, hres⟩ := List.mem_filterMap.mp (hmem r hr)
    unfold resultOf at hres
    cases hfind : st.metadata.find? (fun e => e.id == tid) with
    | none =>
      rw [hfind] at hres
      exact absurd hres (by simp)
    | some e =>
      rw [hfind] at hres
      simp only [Option.map_some'] at hres
      have hre := Option.some.inj hres
      have hid : e.id = tid := by
        have := List.find?_some hfind
        simpa using this
      exact ⟨tid, htid, e, hfind, by rw [← hre], hid⟩
  constructor
  · intro r hr
    obtain ⟨tid, htid, e, hfind, hre, hid⟩ := hshape r hr
    refine ⟨?_, ?_⟩
    · rw [hre]
      exact List.mem_of_find?_eq_some hfind
    · rw [hre, hid]
      exact htid
  · intro tid _ hnone r hr hid
    obtain ⟨tid', _, e, hfind, hre, hid'⟩ := hshape r hr
    have htt : tid = tid' := by rw [← hid, hre, hid']
    subst htt
    rw [hnone] at hfind
    exact absurd hfind (by simp)

/-- The index state of the C10 concrete input: the model surfaces one real
candidate and one stale id with no metadata record. -/
noncomputable def staleIdx : BioFinderIndex where
  metadata := [{ id := "a" }]
  entries := []
  minilm := ⟨false, fun _ _ => []⟩
  biobert := ⟨false, fun _ _ => []⟩
  mpnet := ⟨true, fun _ _ => [("a", 3 / 10), ("ghost", 9 / 10)]⟩

/-- C10 at a concrete input. -/
theorem semantic_results_drawn_from_metadata_witness :
    semanticAvailable staleIdx = true
    ∧ ((∀ r ∈ searchByFunction staleIdx "q" 5, r.tool ∈ staleIdx.metadata ∧
        r.tool.id ∈ allIds staleIdx "q" 5)
      ∧ (∀ tid ∈ allIds staleIdx "q" 5,
          staleIdx.metadata.find? (fun e => e.id == tid) = none →
          ∀ r ∈ searchByFunction staleIdx "q" 5, r.tool.id ≠ tid)) :=
  ⟨rfl, semantic_results_drawn_from_metadata staleIdx "q" 5 rfl⟩
